import Mathlib

/-!
Shallow embedding of `squadron/service.py`: the action catalog and
namespacing (`get_service_actions`), reaction-list construction
(`get_reactions`), the glob-based changed-file check (`_checkfiles`,
modelling the stdlib `fnmatch` collaborator), and the reaction engine
(`react`).  External process execution (`subprocess.call` /
`subprocess.check_call`) is modelled by an environment of pure functions
from the exact value the source passes to the collaborator (a raw command
string for `subprocess.call`, an argv list for `subprocess.check_call`)
to the observed exit status; every started process is recorded in a trace.
Python exceptions become an explicit error type carried in the result.
-/

namespace Squadron

/-- An entry of the action document: `command` is required by
`_action_schema`, `not_after` is optional (a list of action names). -/
structure ActionItem where
  command : String
  not_after : Option (List String)
deriving DecidableEq

/-- The `when` object of a reaction: all three fields are optional in
`_reaction_schema` (none is listed as required). -/
structure WhenBlock where
  command : Option String
  exitcode : Option Int
  files : Option (List String)
deriving DecidableEq

/-- One entry of the reaction document: `execute` is required
(non-empty, duplicate-free per the schema), `when` is optional. -/
structure Reaction where
  execute : List String
  whenb : Option WhenBlock
deriving DecidableEq

/-- The action catalog: Python dict from qualified action name to action
description, embedded as an association list (insertion order). -/
abbrev Catalog := List (String × ActionItem)

/-- Python exceptions raised by `service.py`, with the data the source
interpolates into the exception message carried as fields. -/
inductive SqError where
  /-- `ValueError` from `get_service_actions`: a local key contains a dot.
  Carries the key, the service name and the service version. -/
  | namingError (key service_name service_ver : String)
  /-- `jsonschema.ValidationError`: a document fails schema validation. -/
  | schemaError
  /-- `ValueError` from `react`: a when block with neither command nor files. -/
  | whenBlockError
  /-- Python `KeyError`: a required dict key is missing at lookup time. -/
  | keyError (key : String)
  /-- `ValueError` from `react`: an executed action is not in the catalog.
  Carries the action name and the owning reaction. -/
  | unknownActionError (action : String) (reaction : Reaction)
  /-- `subprocess.CalledProcessError`: carries the command string the
  source prints together with the non-zero return code. -/
  | calledProcessError (cmd : String) (returncode : Int)
deriving DecidableEq

/-- The process-execution collaborator.  `call` models
`subprocess.call(command)` on a raw (untokenized) command string;
`check_call` models the return code observed by
`subprocess.check_call(argv)` on an argv list (0 means success). -/
structure ExecEnv where
  call : String → Int
  check_call : List String → Int

/-- One started external process, as the OS sees it.  A `probe` comes from
`subprocess.call(command)` on a raw string, which (shell=False) runs the
whole string as the program with no arguments, so its argv is the
one-element list.  An `act` comes from `subprocess.check_call(command.split())`
and records the acting action's qualified name and the tokenized argv. -/
inductive Invocation where
  | probe (argv : List String)
  | act (name : String) (argv : List String)
deriving DecidableEq

/-- The engine-local run state: the `done_actions` set of `react`
(embedded as the list of names in the order they were added) and the
trace of external processes started so far. -/
structure RunState where
  done_actions : List String
  trace : List Invocation
deriving DecidableEq

/-- Python `'.' in s`. -/
def hasDot (s : String) : Bool := s.data.contains '.'

/-- The namespacing applied to `not_after` entries and to reaction
`execute` entries: prepend `service_name + "."` unless the name already
contains a dot (lines 86-89 and 114-117 of the source). -/
def qualify (service_name s : String) : String :=
  if hasDot s then s else service_name ++ "." ++ s

/-- Python `str.split()` with no argument: split on runs of whitespace,
discarding empty tokens.  `acc` holds the current word, reversed. -/
def wordsAux : List Char → List Char → List String
  | [], acc => if acc.isEmpty then [] else [String.mk acc.reverse]
  | c :: cs, acc =>
    if c.isWhitespace then
      if acc.isEmpty then wordsAux cs [] else String.mk acc.reverse :: wordsAux cs []
    else wordsAux cs (c :: acc)

/-- `command.split()`: whitespace tokenization of a command string. -/
def pySplit (s : String) : List String := wordsAux s.data []

/-- The per-item check `jsonschema.validate(v, _action_schema)` does on a
typed item: the only constraint not already enforced by the `ActionItem`
type is `uniqueItems` on `not_after`. -/
def actionSchemaOk (v : ActionItem) : Bool :=
  match v.not_after with
  | some l => decide l.Nodup
  | none => true

/-- `not_after` qualification inside `get_service_actions` (lines 82-91):
each entry gets the service name prepended unless it contains a dot. -/
def qualifyNotAfter (service_name : String) (v : ActionItem) : ActionItem :=
  match v.not_after with
  | some l => { v with not_after := some (l.map (qualify service_name)) }
  | none => v

/-- `get_service_actions` (lines 64-96), with the out-of-scope
`get_service_json` collaborator factored out: the already-parsed actions
document is the input.  For each item, in order: raise `ValueError` if
the key contains a dot, validate the item against `_action_schema`,
qualify the `not_after` entries, and store the item under
`service_name + "." + key`. -/
def get_service_actions (service_name service_ver : String) :
    List (String × ActionItem) → Except SqError (List (String × ActionItem))
  | [] => .ok []
  | (k, v) :: rest =>
    if hasDot k then .error (.namingError k service_name service_ver)
    else if actionSchemaOk v then
      match get_service_actions service_name service_ver rest with
      | .ok r => .ok ((service_name ++ "." ++ k, qualifyNotAfter service_name v) :: r)
      | .error e => .error e
    else .error .schemaError

/-- `jsonschema.validate(reactions_desc, _reaction_schema)` on the typed
document: the constraints not already enforced by the `Reaction` type are
`minItems: 1` and `uniqueItems` on `execute`.  Nothing in the schema
requires any field of `when`. -/
def reactionSchemaOk (rs : List Reaction) : Bool :=
  rs.all fun r => !r.execute.isEmpty && decide r.execute.Nodup

/-- `get_reactions` (lines 98-121), with `get_service_json` factored out:
validate the document, then qualify every `execute` entry. -/
def get_reactions (service_name service_ver : String)
    (reactions_desc : List Reaction) : Except SqError (List Reaction) :=
  if reactionSchemaOk reactions_desc then
    .ok (reactions_desc.map fun r =>
      { r with execute := r.execute.map (qualify service_name) })
  else .error .schemaError

/-- Helper for the bracket form of `fnmatch.translate`: scan for the
closing bracket, returning the class content and the rest of the pattern,
or `none` when the bracket is unterminated. -/
def scanClose : List Char → Option (List Char × List Char)
  | [] => none
  | ']' :: rest => some ([], rest)
  | c :: rest => (scanClose rest).map fun p => (c :: p.1, p.2)

/-- `fnmatch.translate` bracket scanning: a leading `!` and a leading `]`
are part of the class content, then everything up to the next `]`. -/
def splitClass (cs : List Char) : Option (List Char × List Char) :=
  match cs with
  | '!' :: ']' :: rest => (scanClose rest).map fun p => ('!' :: ']' :: p.1, p.2)
  | '!' :: rest => (scanClose rest).map fun p => ('!' :: p.1, p.2)
  | ']' :: rest => (scanClose rest).map fun p => (']' :: p.1, p.2)
  | _ => scanClose cs

/-- Membership of a character in a bracket class body, with `a-b` ranges
as in the regex `fnmatch.translate` produces. -/
def classMatch (c : Char) : List Char → Bool
  | a :: '-' :: b :: rest => (a ≤ c && c ≤ b) || classMatch c rest
  | a :: rest => c == a || classMatch c rest
  | [] => false

/-- A bracket class with a leading `!` is negated (regex `[^...]`). -/
def bracketMatch (c : Char) (content : List Char) : Bool :=
  match content with
  | '!' :: rest => !(classMatch c rest)
  | _ => classMatch c content

/-- Whole-string glob matching as the stdlib `fnmatch` collaborator does
it (`*` any run of characters, `?` one character, bracket classes, an
unterminated `[` taken literally; anchored at both ends). -/
def globMatch : List Char → List Char → Bool
  | [], [] => true
  | [], _ :: _ => false
  | '*' :: ps, [] => globMatch ps []
  | '*' :: ps, c :: s2 => globMatch ps (c :: s2) || globMatch ('*' :: ps) s2
  | '?' :: _, [] => false
  | '?' :: ps, _ :: s2 => globMatch ps s2
  | '[' :: _, [] => false
  | '[' :: ps, c :: s2 =>
    match splitClass ps with
    | some (content, ps2) => bracketMatch c content && globMatch ps2 s2
    | none => c == '[' && globMatch ps s2
  | p :: ps, [] => false
  | p :: ps, c :: s2 => p == c && globMatch ps s2
termination_by p s => (s.length, p.length)

/-- `fnmatch.fnmatch(name, pattern)` on POSIX (where `normcase` is the
identity). -/
def fnmatchOne (name pat : String) : Bool := globMatch pat.data name.data

/-- `_checkfiles` (lines 124-139): true iff some pattern matches some
changed path (`fnmatch.filter` non-empty for some pattern). -/
def _checkfiles (filepatterns paths_changed : List String) : Bool :=
  filepatterns.any fun pat => paths_changed.any fun p => fnmatchOne p pat

/-- The `not_after` set of an action item: empty when the key is absent
(lines 172-175). -/
def notAfterOf (v : ActionItem) : List String := v.not_after.getD []

/-- Non-emptiness of `done_actions.intersection(not_after)` (line 177). -/
def intersects (done na : List String) : Bool := done.any fun d => na.contains d

/-- Trigger evaluation, lines 153-165 of `react`: no `when` block fires
unconditionally; a `command` key is checked first (fetching `exitcode`
raises `KeyError` when absent, before any process is started; the probe
fires iff the status equals `exitcode`); otherwise a `files` key is
matched with `_checkfiles`; otherwise `ValueError`.  Returns the updated
trace together with the firing decision or the raised error. -/
def evalWhen (env : ExecEnv) (paths_changed : List String)
    (w : Option WhenBlock) (st : RunState) : RunState × Except SqError Bool :=
  match w with
  | none => (st, .ok true)
  | some whenb =>
    match whenb.command with
    | some command =>
      match whenb.exitcode with
      | none => (st, .error (.keyError ("exitcode")))
      | some exitcode =>
        (⟨st.done_actions, st.trace ++ [.probe [command]]⟩,
         .ok (env.call command == exitcode))
    | none =>
      match whenb.files with
      | some files => (st, .ok (_checkfiles files paths_changed))
      | none => (st, .error .whenBlockError)

/-- The inner loop of `react` over a firing reaction's `execute` list
(lines 168-190): an unknown reference is a fatal `ValueError` naming the
action and the reaction; a reference already in `done_actions` is skipped;
a non-empty intersection of `done_actions` with the action's `not_after`
set is a silent skip; otherwise the command is tokenized and run, the
name is added to `done_actions` on status 0, and a non-zero status is a
fatal `CalledProcessError` carrying the command and the status. -/
def runExecList (env : ExecEnv) (actions : Catalog) (reaction : Reaction) :
    List String → RunState → RunState × Option SqError
  | [], st => (st, none)
  | a :: rest, st =>
    match actions.lookup a with
    | none => (st, some (.unknownActionError a reaction))
    | some action_item =>
      if st.done_actions.contains a then
        runExecList env actions reaction rest st
      else if intersects st.done_actions (notAfterOf action_item) then
        runExecList env actions reaction rest st
      else if env.check_call (pySplit action_item.command) == 0 then
        runExecList env actions reaction rest
          ⟨st.done_actions ++ [a],
           st.trace ++ [.act a (pySplit action_item.command)]⟩
      else
        (⟨st.done_actions, st.trace ++ [.act a (pySplit action_item.command)]⟩,
         some (.calledProcessError action_item.command
           (env.check_call (pySplit action_item.command))))

/-- One iteration of the outer loop of `react`: evaluate the trigger; on
error abort, on a non-firing trigger do nothing, on a firing trigger run
the `execute` list. -/
def runReaction (env : ExecEnv) (actions : Catalog) (paths_changed : List String)
    (reaction : Reaction) (st : RunState) : RunState × Option SqError :=
  match evalWhen env paths_changed reaction.whenb st with
  | (st1, .error e) => (st1, some e)
  | (st1, .ok false) => (st1, none)
  | (st1, .ok true) => runExecList env actions reaction reaction.execute st1

/-- The outer loop of `react` over the reaction list, in declared order;
the first error aborts the whole run. -/
def reactLoop (env : ExecEnv) (actions : Catalog) (paths_changed : List String) :
    List Reaction → RunState → RunState × Option SqError
  | [], st => (st, none)
  | reaction :: rest, st =>
    match runReaction env actions paths_changed reaction st with
    | (st1, some e) => (st1, some e)
    | (st1, none) => reactLoop env actions paths_changed rest st1

/-- `react` (lines 141-190): start with an empty `done_actions` set and
process the reactions in order.  The result is the final run state (with
the full trace of started processes) plus the raised error, if any. -/
def react (env : ExecEnv) (actions : Catalog) (reactions : List Reaction)
    (paths_changed : List String) : RunState × Option SqError :=
  reactLoop env actions paths_changed reactions ⟨[], []⟩

/-- The qualified action name an invocation executed, if it is an action
run (probes carry none). -/
def actName : Invocation → Option String
  | .act n _ => some n
  | .probe _ => none

/-- The successful-or-failed action runs of a trace, in order. -/
def actNames (tr : List Invocation) : List String := tr.filterMap actName

end Squadron

namespace Squadron

theorem actNames_append (t1 t2 : List Invocation) :
    actNames (t1 ++ t2) = actNames t1 ++ actNames t2 :=
  List.filterMap_append t1 t2 actName

theorem actNames_act (t : List Invocation) (n : String) (v : List String) :
    actNames (t ++ [.act n v]) = actNames t ++ [n] := by
  simp [actNames, actName]

theorem actNames_probe (t : List Invocation) (v : List String) :
    actNames (t ++ [.probe v]) = actNames t := by
  simp [actNames, actName]

theorem contains_true_iff (l : List String) (x : String) :
    l.contains x = true ↔ x ∈ l := by
  simp [List.contains]

theorem contains_false_iff (l : List String) (x : String) :
    l.contains x = false ↔ x ∉ l := by
  simp [List.contains]

theorem intersects_false (done na : List String) (x : String)
    (h : intersects done na = false) (hd : x ∈ done) (hn : x ∈ na) : False := by
  have := List.any_eq_false.mp h x hd
  rw [contains_true_iff] at this
  exact this hn

theorem pair_sublist_concat {x y c : String} {l : List String}
    (h : List.Sublist [x, y] (l ++ [c])) : List.Sublist [x, y] l ∨ (x ∈ l ∧ y = c) := by
  induction l with
  | nil =>
    have := h.length_le
    simp at this
  | cons d l ih =>
    rcases h with _ | ⟨_, h2⟩ | ⟨_, h2⟩
    case cons =>
      rcases ih h2 with h3 | ⟨h3, h4⟩
      · exact Or.inl (h3.cons d)
      · exact Or.inr ⟨List.mem_cons_of_mem d h3, h4⟩
    case cons₂ =>
      rcases List.mem_append.mp (List.singleton_sublist.mp h2) with h3 | h3
      · exact Or.inl ((List.singleton_sublist.mpr h3).cons₂ _)
      · exact Or.inr ⟨List.mem_cons_self _ _, by simpa using h3⟩

theorem evalWhen_done (env : ExecEnv) (ps : List String)
    (w : Option WhenBlock) (st : RunState) :
    (evalWhen env ps w st).1.done_actions = st.done_actions := by
  match w with
  | none => rfl
  | some ⟨none, eo, none⟩ => rfl
  | some ⟨none, eo, some fs⟩ => rfl
  | some ⟨some c, none, fo⟩ => rfl
  | some ⟨some c, some ec, fo⟩ => rfl

theorem evalWhen_actNames (env : ExecEnv) (ps : List String)
    (w : Option WhenBlock) (st : RunState) :
    actNames (evalWhen env ps w st).1.trace = actNames st.trace := by
  match w with
  | none => rfl
  | some ⟨none, eo, none⟩ => rfl
  | some ⟨none, eo, some fs⟩ => rfl
  | some ⟨some c, none, fo⟩ => rfl
  | some ⟨some c, some ec, fo⟩ => simpa [evalWhen] using actNames_probe st.trace [c]

theorem evalWhen_error_shape (env : ExecEnv) (ps : List String)
    (w : Option WhenBlock) (st st1 : RunState) (e : SqError)
    (h : evalWhen env ps w st = (st1, .error e)) :
    (e = .keyError ("exitcode") ∨ e = .whenBlockError) ∧ st1 = st := by
  match w, h with
  | none, h => simp [evalWhen] at h
  | some ⟨none, eo, none⟩, h =>
    simp [evalWhen] at h
    exact ⟨Or.inr h.2.symm, h.1.symm⟩
  | some ⟨none, eo, some fs⟩, h => simp [evalWhen] at h
  | some ⟨some c, none, fo⟩, h =>
    simp [evalWhen] at h
    exact ⟨Or.inl h.2.symm, h.1.symm⟩
  | some ⟨some c, some ec, fo⟩, h => simp [evalWhen] at h

theorem runExecList_nodup (env : ExecEnv) (cat : Catalog) (r : Reaction)
    (refs : List String) : ∀ (st : RunState),
    actNames st.trace = st.done_actions → st.done_actions.Nodup →
    (actNames (runExecList env cat r refs st).1.trace).Nodup ∧
    ((runExecList env cat r refs st).2 = none →
      actNames (runExecList env cat r refs st).1.trace =
        (runExecList env cat r refs st).1.done_actions ∧
      (runExecList env cat r refs st).1.done_actions.Nodup) := by
  induction refs with
  | nil =>
    intro st hI hN
    simp only [runExecList]
    exact ⟨hI ▸ hN, fun _ => ⟨hI, hN⟩⟩
  | cons a rest ih =>
    intro st hI hN
    cases hl : cat.lookup a with
    | none =>
      simp only [runExecList, hl]
      refine ⟨hI ▸ hN, fun h => by cases h⟩
    | some item =>
      by_cases hc : st.done_actions.contains a = true
      · simp only [runExecList, hl, hc, if_true]
        exact ih st hI hN
      · simp only [Bool.not_eq_true] at hc
        by_cases hint : intersects st.done_actions (notAfterOf item) = true
        · simp only [runExecList, hl, hc, hint, Bool.false_eq_true, if_false, if_true]
          exact ih st hI hN
        · simp only [Bool.not_eq_true] at hint
          have hmem : a ∉ st.done_actions := (contains_false_iff _ _).mp hc
          by_cases hret : (env.check_call (pySplit item.command) == 0) = true
          · simp only [runExecList, hl, hc, hint, hret, Bool.false_eq_true, if_false, if_true]
            have hI2 : actNames (st.trace ++ [.act a (pySplit item.command)]) =
                st.done_actions ++ [a] := by rw [actNames_act, hI]
            have hN2 : (st.done_actions ++ [a]).Nodup := by
              simp [List.nodup_append, hN, hmem]
            exact ih _ hI2 hN2
          · simp only [Bool.not_eq_true] at hret
            simp only [runExecList, hl, hc, hint, hret, Bool.false_eq_true, if_false]
            refine ⟨?_, fun h => by cases h⟩
            rw [actNames_act, hI]
            simp [List.nodup_append, hN, hmem]

theorem runReaction_nodup (env : ExecEnv) (cat : Catalog) (ps : List String)
    (r : Reaction) (st : RunState)
    (hI : actNames st.trace = st.done_actions) (hN : st.done_actions.Nodup) :
    (actNames (runReaction env cat ps r st).1.trace).Nodup ∧
    ((runReaction env cat ps r st).2 = none →
      actNames (runReaction env cat ps r st).1.trace =
        (runReaction env cat ps r st).1.done_actions ∧
      (runReaction env cat ps r st).1.done_actions.Nodup) := by
  have hd := evalWhen_done env ps r.whenb st
  have ha := evalWhen_actNames env ps r.whenb st
  unfold runReaction
  cases hew : evalWhen env ps r.whenb st with
  | mk st1 res =>
    rw [hew] at hd ha
    cases res with
    | error e =>
      refine ⟨?_, fun h => by cases h⟩
      show (actNames st1.trace).Nodup
      rw [ha, hI]
      exact hN
    | ok b =>
      cases b with
      | false =>
        refine ⟨?_, fun _ => ⟨?_, ?_⟩⟩
        · show (actNames st1.trace).Nodup
          rw [ha, hI]
          exact hN
        · show actNames st1.trace = st1.done_actions
          rw [ha, hI, hd]
        · show st1.done_actions.Nodup
          rw [hd]
          exact hN
      | true =>
        exact runExecList_nodup env cat r r.execute st1
          (by rw [ha, hI, hd]) (by rw [hd]; exact hN)

theorem reactLoop_nodup (env : ExecEnv) (cat : Catalog) (ps : List String)
    (rs : List Reaction) : ∀ (st : RunState),
    actNames st.trace = st.done_actions → st.done_actions.Nodup →
    (actNames (reactLoop env cat ps rs st).1.trace).Nodup ∧
    ((reactLoop env cat ps rs st).2 = none →
      actNames (reactLoop env cat ps rs st).1.trace =
        (reactLoop env cat ps rs st).1.done_actions ∧
      (reactLoop env cat ps rs st).1.done_actions.Nodup) := by
  induction rs with
  | nil =>
    intro st hI hN
    simp only [reactLoop]
    exact ⟨hI ▸ hN, fun _ => ⟨hI, hN⟩⟩
  | cons r rest ih =>
    intro st hI hN
    have hr := runReaction_nodup env cat ps r st hI hN
    cases hrr : runReaction env cat ps r st with
    | mk st1 e =>
      rw [hrr] at hr
      cases e with
      | some e0 =>
        simp only [reactLoop, hrr]
        exact ⟨hr.1, fun h => by cases h⟩
      | none =>
        simp only [reactLoop, hrr]
        obtain ⟨hI1, hN1⟩ := hr.2 rfl
        exact ih st1 hI1 hN1

theorem runExecList_excl (env : ExecEnv) (cat : Catalog) (r : Reaction)
    (a b : String) (item : ActionItem)
    (hlook : cat.lookup a = some item) (hb : b ∈ notAfterOf item)
    (refs : List String) : ∀ (st : RunState),
    actNames st.trace = st.done_actions →
    ¬ List.Sublist [b, a] (actNames st.trace) →
    ¬ List.Sublist [b, a] (actNames (runExecList env cat r refs st).1.trace) ∧
    ((runExecList env cat r refs st).2 = none →
      actNames (runExecList env cat r refs st).1.trace =
        (runExecList env cat r refs st).1.done_actions) := by
  induction refs with
  | nil =>
    intro st hI hG
    simp only [runExecList]
    exact ⟨hG, fun _ => hI⟩
  | cons c rest ih =>
    intro st hI hG
    cases hl : cat.lookup c with
    | none =>
      simp only [runExecList, hl]
      exact ⟨hG, fun h => by cases h⟩
    | some item2 =>
      by_cases hc : st.done_actions.contains c = true
      · simp only [runExecList, hl, hc, if_true]
        exact ih st hI hG
      · simp only [Bool.not_eq_true] at hc
        by_cases hint : intersects st.done_actions (notAfterOf item2) = true
        · simp only [runExecList, hl, hc, hint, Bool.false_eq_true, if_false, if_true]
          exact ih st hI hG
        · simp only [Bool.not_eq_true] at hint
          have hmem : c ∉ st.done_actions := (contains_false_iff _ _).mp hc
          have hG2 : ¬ List.Sublist [b, a] (actNames st.trace ++ [c]) := by
            intro hsub
            rcases pair_sublist_concat hsub with h1 | ⟨h1, h2⟩
            · exact hG h1
            · subst h2
              rw [hlook] at hl
              injection hl with hitem
              rw [hI] at h1
              rw [← hitem] at hint
              exact intersects_false _ _ _ hint h1 hb
          by_cases hret : (env.check_call (pySplit item2.command) == 0) = true
          · simp only [runExecList, hl, hc, hint, hret, Bool.false_eq_true, if_false, if_true]
            have hI2 : actNames (st.trace ++ [.act c (pySplit item2.command)]) =
                st.done_actions ++ [c] := by rw [actNames_act, hI]
            have hG3 : ¬ List.Sublist [b, a]
                (actNames (st.trace ++ [.act c (pySplit item2.command)])) := by
              rw [actNames_act]
              exact hG2
            exact ih _ hI2 hG3
          · simp only [Bool.not_eq_true] at hret
            simp only [runExecList, hl, hc, hint, hret, Bool.false_eq_true, if_false]
            refine ⟨?_, fun h => by cases h⟩
            rw [actNames_act]
            exact hG2

theorem runReaction_excl (env : ExecEnv) (cat : Catalog) (ps : List String)
    (a b : String) (item : ActionItem)
    (hlook : cat.lookup a = some item) (hb : b ∈ notAfterOf item)
    (r : Reaction) (st : RunState)
    (hI : actNames st.trace = st.done_actions)
    (hG : ¬ List.Sublist [b, a] (actNames st.trace)) :
    ¬ List.Sublist [b, a] (actNames (runReaction env cat ps r st).1.trace) ∧
    ((runReaction env cat ps r st).2 = none →
      actNames (runReaction env cat ps r st).1.trace =
        (runReaction env cat ps r st).1.done_actions) := by
  have hd := evalWhen_done env ps r.whenb st
  have ha := evalWhen_actNames env ps r.whenb st
  unfold runReaction
  cases hew : evalWhen env ps r.whenb st with
  | mk st1 res =>
    rw [hew] at hd ha
    cases res with
    | error e =>
      refine ⟨?_, fun h => by cases h⟩
      show ¬ List.Sublist [b, a] (actNames st1.trace)
      rw [ha]
      exact hG
    | ok bb =>
      cases bb with
      | false =>
        refine ⟨?_, fun _ => ?_⟩
        · show ¬ List.Sublist [b, a] (actNames st1.trace)
          rw [ha]
          exact hG
        · show actNames st1.trace = st1.done_actions
          rw [ha, hI, hd]
      | true =>
        exact runExecList_excl env cat r a b item hlook hb r.execute st1
          (by rw [ha, hI, hd]) (by rw [ha]; exact hG)

theorem reactLoop_excl (env : ExecEnv) (cat : Catalog) (ps : List String)
    (a b : String) (item : ActionItem)
    (hlook : cat.lookup a = some item) (hb : b ∈ notAfterOf item)
    (rs : List Reaction) : ∀ (st : RunState),
    actNames st.trace = st.done_actions →
    ¬ List.Sublist [b, a] (actNames st.trace) →
    ¬ List.Sublist [b, a] (actNames (reactLoop env cat ps rs st).1.trace) := by
  induction rs with
  | nil =>
    intro st hI hG
    simp only [reactLoop]
    exact hG
  | cons r rest ih =>
    intro st hI hG
    have hr := runReaction_excl env cat ps a b item hlook hb r st hI hG
    cases hrr : runReaction env cat ps r st with
    | mk st1 e =>
      rw [hrr] at hr
      cases e with
      | some e0 =>
        simp only [reactLoop, hrr]
        exact hr.1
      | none =>
        simp only [reactLoop, hrr]
        exact ih st1 (hr.2 rfl) hr.1

theorem runExecList_cpe (env : ExecEnv) (cat : Catalog) (r : Reaction)
    (refs : List String) : ∀ (st st2 : RunState) (c : String) (ret : Int),
    runExecList env cat r refs st = (st2, some (.calledProcessError c ret)) →
    ret ≠ 0 ∧ ∃ aN item, cat.lookup aN = some item ∧ item.command = c ∧
      env.check_call (pySplit c) = ret ∧
      st2.trace.getLast? = some (.act aN (pySplit c)) ∧
      st2.done_actions.contains aN = false := by
  induction refs with
  | nil =>
    intro st st2 c ret h
    have := congrArg Prod.snd h
    simp [runExecList] at this
  | cons a rest ih =>
    intro st st2 c ret h
    cases hl : cat.lookup a with
    | none =>
      rw [runExecList, hl] at h
      have := congrArg Prod.snd h
      simp at this
    | some item =>
      by_cases hc : st.done_actions.contains a = true
      · rw [runExecList, hl] at h
        simp only [hc, if_true] at h
        exact ih st st2 c ret h
      · simp only [Bool.not_eq_true] at hc
        by_cases hint : intersects st.done_actions (notAfterOf item) = true
        · rw [runExecList, hl] at h
          simp only [hc, hint, Bool.false_eq_true, if_false, if_true] at h
          exact ih st st2 c ret h
        · simp only [Bool.not_eq_true] at hint
          by_cases hret : (env.check_call (pySplit item.command) == 0) = true
          · rw [runExecList, hl] at h
            simp only [hc, hint, hret, Bool.false_eq_true, if_false, if_true] at h
            exact ih _ st2 c ret h
          · simp only [Bool.not_eq_true] at hret
            rw [runExecList, hl] at h
            simp only [hc, hint, hret, Bool.false_eq_true, if_false] at h
            injection h with hst herr
            injection herr with herr2
            injection herr2 with hcmd hret2
            subst hst
            subst hcmd
            subst hret2
            refine ⟨beq_eq_false_iff_ne.mp hret, a, item, hl, rfl, rfl, ?_, hc⟩
            exact List.getLast?_concat _

theorem reactLoop_cpe (env : ExecEnv) (cat : Catalog) (ps : List String)
    (rs : List Reaction) : ∀ (st st2 : RunState) (c : String) (ret : Int),
    reactLoop env cat ps rs st = (st2, some (.calledProcessError c ret)) →
    ret ≠ 0 ∧ ∃ aN item, cat.lookup aN = some item ∧ item.command = c ∧
      env.check_call (pySplit c) = ret ∧
      st2.trace.getLast? = some (.act aN (pySplit c)) ∧
      st2.done_actions.contains aN = false := by
  induction rs with
  | nil =>
    intro st st2 c ret h
    have := congrArg Prod.snd h
    simp [reactLoop] at this
  | cons r rest ih =>
    intro st st2 c ret h
    cases hrr : runReaction env cat ps r st with
    | mk st1 e =>
      cases e with
      | some e0 =>
        rw [reactLoop, hrr] at h
        injection h with hst herr
        injection herr with herr2
        unfold runReaction at hrr
        cases hew : evalWhen env ps r.whenb st with
        | mk stw res =>
          rw [hew] at hrr
          cases res with
          | error e1 =>
            injection hrr with h1 h2
            injection h2 with h2
            obtain ⟨hshape, _⟩ := evalWhen_error_shape env ps r.whenb st stw e1 hew
            rw [h2, herr2] at hshape
            rcases hshape with h3 | h3 <;> simp at h3
          | ok bb =>
            cases bb with
            | false =>
              injection hrr with h1 h2
              cases h2
            | true =>
              rw [hst, herr2] at hrr
              exact runExecList_cpe env cat r r.execute stw st2 c ret hrr
      | none =>
        rw [reactLoop, hrr] at h
        exact ih st1 st2 c ret h

theorem runExecList_uae (env : ExecEnv) (cat : Catalog) (r : Reaction)
    (refs : List String) : ∀ (st st2 : RunState) (a2 : String) (r2 : Reaction),
    runExecList env cat r refs st = (st2, some (.unknownActionError a2 r2)) →
    cat.lookup a2 = none ∧ r2 = r ∧ a2 ∈ refs := by
  induction refs with
  | nil =>
    intro st st2 a2 r2 h
    have := congrArg Prod.snd h
    simp [runExecList] at this
  | cons a rest ih =>
    intro st st2 a2 r2 h
    cases hl : cat.lookup a with
    | none =>
      rw [runExecList, hl] at h
      injection h with hst herr
      injection herr with herr2
      injection herr2 with ha2 hr2
      subst ha2
      subst hr2
      exact ⟨hl, rfl, List.mem_cons_self _ _⟩
    | some item =>
      by_cases hc : st.done_actions.contains a = true
      · rw [runExecList, hl] at h
        simp only [hc, if_true] at h
        obtain ⟨h1, h2, h3⟩ := ih st st2 a2 r2 h
        exact ⟨h1, h2, List.mem_cons_of_mem _ h3⟩
      · simp only [Bool.not_eq_true] at hc
        by_cases hint : intersects st.done_actions (notAfterOf item) = true
        · rw [runExecList, hl] at h
          simp only [hc, hint, Bool.false_eq_true, if_false, if_true] at h
          obtain ⟨h1, h2, h3⟩ := ih st st2 a2 r2 h
          exact ⟨h1, h2, List.mem_cons_of_mem _ h3⟩
        · simp only [Bool.not_eq_true] at hint
          by_cases hret : (env.check_call (pySplit item.command) == 0) = true
          · rw [runExecList, hl] at h
            simp only [hc, hint, hret, Bool.false_eq_true, if_false, if_true] at h
            obtain ⟨h1, h2, h3⟩ := ih _ st2 a2 r2 h
            exact ⟨h1, h2, List.mem_cons_of_mem _ h3⟩
          · simp only [Bool.not_eq_true] at hret
            rw [runExecList, hl] at h
            simp only [hc, hint, hret, Bool.false_eq_true, if_false] at h
            injection h with hst herr
            injection herr with herr2
            cases herr2

theorem reactLoop_uae (env : ExecEnv) (cat : Catalog) (ps : List String)
    (rs : List Reaction) : ∀ (st st2 : RunState) (a2 : String) (r2 : Reaction),
    reactLoop env cat ps rs st = (st2, some (.unknownActionError a2 r2)) →
    cat.lookup a2 = none ∧ r2 ∈ rs ∧ a2 ∈ r2.execute := by
  induction rs with
  | nil =>
    intro st st2 a2 r2 h
    have := congrArg Prod.snd h
    simp [reactLoop] at this
  | cons r rest ih =>
    intro st st2 a2 r2 h
    cases hrr : runReaction env cat ps r st with
    | mk st1 e =>
      cases e with
      | some e0 =>
        rw [reactLoop, hrr] at h
        injection h with hst herr
        injection herr with herr2
        unfold runReaction at hrr
        cases hew : evalWhen env ps r.whenb st with
        | mk stw res =>
          rw [hew] at hrr
          cases res with
          | error e1 =>
            injection hrr with h1 h2
            injection h2 with h2
            obtain ⟨hshape, _⟩ := evalWhen_error_shape env ps r.whenb st stw e1 hew
            rw [h2, herr2] at hshape
            rcases hshape with h3 | h3 <;> simp at h3
          | ok bb =>
            cases bb with
            | false =>
              injection hrr with h1 h2
              cases h2
            | true =>
              rw [hst, herr2] at hrr
              obtain ⟨h1, h2, h3⟩ := runExecList_uae env cat r r.execute stw st2 a2 r2 hrr
              subst h2
              exact ⟨h1, List.mem_cons_self _ _, h3⟩
      | none =>
        rw [reactLoop, hrr] at h
        obtain ⟨h1, h2, h3⟩ := ih st1 st2 a2 r2 h
        exact ⟨h1, List.mem_cons_of_mem _ h2, h3⟩

theorem reactLoop_stop (env : ExecEnv) (cat : Catalog) (ps : List String)
    (r0 : Reaction) (st0 st1 : RunState) (e0 : SqError) (later : List Reaction)
    (h : runReaction env cat ps r0 st0 = (st1, some e0)) :
    reactLoop env cat ps (r0 :: later) st0 = (st1, some e0) := by
  rw [reactLoop, h]

theorem hasDot_qualified (s n : String) : hasDot (s ++ "." ++ n) = true := by
  have hmem : ('.' : Char) ∈ (s ++ "." ++ n).data := by
    rw [String.data_append, String.data_append]
    refine List.mem_append.mpr (Or.inl (List.mem_append.mpr (Or.inr ?_)))
    decide
  exact List.elem_eq_true_of_mem hmem

theorem qualify_of_hasDot (s n : String) (h : hasDot n = true) : qualify s n = n := by
  rw [qualify, if_pos h]

theorem qualify_of_not_hasDot (s n : String) (h : hasDot n = false) :
    qualify s n = s ++ "." ++ n := by
  rw [qualify, if_neg]
  simp [h]

theorem get_service_actions_any_dot (s sv : String) :
    ∀ (desc : List (String × ActionItem)),
    (∃ p ∈ desc, hasDot p.1 = true) →
    ∃ e, get_service_actions s sv desc = .error e := by
  intro desc
  induction desc with
  | nil =>
    rintro ⟨p, hp, _⟩
    cases hp
  | cons kv rest ih =>
    rintro ⟨p, hp, hdot⟩
    obtain ⟨k0, v0⟩ := kv
    by_cases hk : hasDot k0 = true
    · exact ⟨.namingError k0 s sv, by rw [get_service_actions, if_pos hk]⟩
    · simp only [Bool.not_eq_true] at hk
      by_cases hs : actionSchemaOk v0 = true
      · have hrest : ∃ p ∈ rest, hasDot p.1 = true := by
          rcases List.mem_cons.mp hp with h1 | h1
          · exfalso
            rw [h1] at hdot
            simp only [hdot] at hk
            cases hk
          · exact ⟨p, h1, hdot⟩
        obtain ⟨e, he⟩ := ih hrest
        refine ⟨e, ?_⟩
        rw [get_service_actions, if_neg (by simp [hk]), if_pos hs, he]
      · simp only [Bool.not_eq_true] at hs
        refine ⟨.schemaError, ?_⟩
        rw [get_service_actions, if_neg (by simp [hk]), if_neg (by simp [hs])]

theorem get_service_actions_first_dot (s sv k : String) (v : ActionItem)
    (post : List (String × ActionItem)) :
    ∀ (pre : List (String × ActionItem)),
    (∀ p ∈ pre, hasDot p.1 = false ∧ actionSchemaOk p.2 = true) →
    hasDot k = true →
    get_service_actions s sv (pre ++ (k, v) :: post) =
      .error (.namingError k s sv) := by
  intro pre
  induction pre with
  | nil =>
    intro _ hdot
    rw [List.nil_append, get_service_actions, if_pos hdot]
  | cons p0 pre ih =>
    intro hpre hdot
    obtain ⟨hp1, hp2⟩ := hpre p0 (List.mem_cons_self _ _)
    obtain ⟨k0, v0⟩ := p0
    rw [List.cons_append, get_service_actions, if_neg (by simp_all), if_pos hp2,
      ih (fun p hp => hpre p (List.mem_cons_of_mem _ hp)) hdot]

theorem runExecList_payload_indep (env : ExecEnv) (cat : Catalog)
    (r1 r2 : Reaction) (refs : List String) : ∀ (st : RunState),
    (runExecList env cat r1 refs st).1 = (runExecList env cat r2 refs st).1 ∧
    (runExecList env cat r1 refs st).2.isNone =
      (runExecList env cat r2 refs st).2.isNone := by
  induction refs with
  | nil =>
    intro st
    exact ⟨rfl, rfl⟩
  | cons a rest ih =>
    intro st
    cases hl : cat.lookup a with
    | none =>
      simp only [runExecList, hl]
      constructor <;> trivial
    | some item =>
      by_cases hc : st.done_actions.contains a = true
      · simp only [runExecList, hl, hc, if_true]
        exact ih st
      · simp only [Bool.not_eq_true] at hc
        by_cases hint : intersects st.done_actions (notAfterOf item) = true
        · simp only [runExecList, hl, hc, hint, Bool.false_eq_true, if_false, if_true]
          exact ih st
        · simp only [Bool.not_eq_true] at hint
          by_cases hret : (env.check_call (pySplit item.command) == 0) = true
          · simp only [runExecList, hl, hc, hint, hret, Bool.false_eq_true, if_false,
              if_true]
            exact ih _
          · simp only [Bool.not_eq_true] at hret
            simp only [runExecList, hl, hc, hint, hret, Bool.false_eq_true, if_false]
            constructor <;> trivial

theorem reactLoop_head_indep (env : ExecEnv) (cat : Catalog) (ps : List String)
    (r1 r2 : Reaction) (rest : List Reaction) (st : RunState)
    (hex : r1.execute = r2.execute)
    (hew : evalWhen env ps r1.whenb st = evalWhen env ps r2.whenb st) :
    (reactLoop env cat ps (r1 :: rest) st).1 =
      (reactLoop env cat ps (r2 :: rest) st).1 := by
  rw [reactLoop, reactLoop, runReaction, runReaction, hew, ← hex]
  cases hew2 : evalWhen env ps r2.whenb st with
  | mk st1 res =>
    cases res with
    | error e => rfl
    | ok b =>
      cases b with
      | false => rfl
      | true =>
        simp only []
        obtain ⟨hfst, hsnd⟩ := runExecList_payload_indep env cat r1 r2 r1.execute st1
        cases he1 : (runExecList env cat r1 r1.execute st1).2 with
        | some e1 =>
          cases he2 : (runExecList env cat r2 r1.execute st1).2 with
          | some e2 =>
            cases hr1 : runExecList env cat r1 r1.execute st1 with
            | mk s1 o1 =>
              cases hr2 : runExecList env cat r2 r1.execute st1 with
              | mk s2 o2 =>
                rw [hr1, hr2] at hfst
                rw [hr1] at he1
                rw [hr2] at he2
                simp only [] at hfst he1 he2
                subst he1
                subst he2
                simp only []
                exact hfst
          | none =>
            rw [he1, he2] at hsnd
            simp at hsnd
        | none =>
          cases he2 : (runExecList env cat r2 r1.execute st1).2 with
          | some e2 =>
            rw [he1, he2] at hsnd
            simp at hsnd
          | none =>
            cases hr1 : runExecList env cat r1 r1.execute st1 with
            | mk s1 o1 =>
              cases hr2 : runExecList env cat r2 r1.execute st1 with
              | mk s2 o2 =>
                rw [hr1, hr2] at hfst
                rw [hr1] at he1
                rw [hr2] at he2
                simp only [] at hfst he1 he2
                subst he1
                subst he2
                simp only []
                rw [hfst]

/-- C1: in any `react` pass, no action's command is invoked more than once
(each qualified action name occurs at most once among the action
invocations of the trace), and a reference that is already in the
`done_actions` set is skipped silently: processing it is identical to
processing the remaining references, with no invocation and no error. -/
theorem react_at_most_once (env : ExecEnv) (actions : Catalog)
    (reactions : List Reaction) (paths_changed : List String) (a : String)
    (reaction : Reaction) (rest : List String) (st : RunState) (item : ActionItem)
    (hlook : actions.lookup a = some item)
    (hdone : st.done_actions.contains a = true) :
    List.count a (actNames (react env actions reactions paths_changed).1.trace) ≤ 1 ∧
    runExecList env actions reaction (a :: rest) st =
      runExecList env actions reaction rest st := by
  constructor
  · have h := reactLoop_nodup env actions paths_changed reactions ⟨[], []⟩ rfl List.nodup_nil
    exact List.nodup_iff_count_le_one.mp h.1 a
  · rw [runExecList, hlook]
    simp only [hdone, if_true]

theorem react_at_most_once_witness :
    List.lookup ("s.a") [(("s.a" : String), ActionItem.mk ("ca") none)] =
      some (ActionItem.mk ("ca") none) ∧
    List.contains [("s.a" : String)] ("s.a") = true ∧
    (List.count ("s.a")
      (actNames (react ⟨fun _ => 0, fun _ => 0⟩
        [(("s.a" : String), ActionItem.mk ("ca") none)]
        [⟨[("s.a" : String)], none⟩, ⟨[("s.a" : String)], none⟩] []).1.trace) ≤ 1 ∧
    runExecList ⟨fun _ => 0, fun _ => 0⟩
        [(("s.a" : String), ActionItem.mk ("ca") none)]
        ⟨[("s.a" : String)], none⟩ [("s.a" : String)] ⟨[("s.a" : String)], []⟩ =
      runExecList ⟨fun _ => 0, fun _ => 0⟩
        [(("s.a" : String), ActionItem.mk ("ca") none)]
        ⟨[("s.a" : String)], none⟩ [] ⟨[("s.a" : String)], []⟩) :=
  ⟨by rfl, by rfl,
    react_at_most_once ⟨fun _ => 0, fun _ => 0⟩
      [(("s.a" : String), ActionItem.mk ("ca") none)]
      [⟨[("s.a" : String)], none⟩, ⟨[("s.a" : String)], none⟩] [] ("s.a")
      ⟨[("s.a" : String)], none⟩ [] ⟨[("s.a" : String)], []⟩
      (ActionItem.mk ("ca") none) (by rfl) (by rfl)⟩

/-- C2: if the intersection of `done_actions` with an action's `not_after`
set is non-empty at the moment the action is considered, the action is
skipped silently (processing its occurrence equals processing the rest of
the execute list, with no invocation and no error); globally, for any
action `a` whose `not_after` set contains `b`, the pass never runs `b`
and later `a`: `[b, a]` is not a sublist of the acted names of the trace. -/
theorem react_exclusion_sound (env : ExecEnv) (actions : Catalog)
    (reactions : List Reaction) (paths_changed : List String) (a b : String)
    (item : ActionItem) (reaction : Reaction) (rest : List String) (st : RunState)
    (hlook : actions.lookup a = some item) (hb : b ∈ notAfterOf item)
    (hint : intersects st.done_actions (notAfterOf item) = true)
    (hnd : st.done_actions.contains a = false) :
    runExecList env actions reaction (a :: rest) st =
      runExecList env actions reaction rest st ∧
    ¬ List.Sublist [b, a]
      (actNames (react env actions reactions paths_changed).1.trace) := by
  constructor
  · rw [runExecList, hlook]
    simp only [hnd, hint, Bool.false_eq_true, if_false, if_true]
  · exact reactLoop_excl env actions paths_changed a b item hlook hb reactions
      ⟨[], []⟩ rfl (by simp [actNames])

theorem react_exclusion_sound_witness :
    List.lookup ("s.a") [(("s.a" : String), ActionItem.mk ("ca") (some [("s.b" : String)])),
        (("s.b" : String), ActionItem.mk ("cb") none)] =
      some (ActionItem.mk ("ca") (some [("s.b" : String)])) ∧
    ("s.b" : String) ∈ notAfterOf (ActionItem.mk ("ca") (some [("s.b" : String)])) ∧
    intersects [("s.b" : String)]
      (notAfterOf (ActionItem.mk ("ca") (some [("s.b" : String)]))) = true ∧
    List.contains [("s.b" : String)] ("s.a") = false ∧
    (runExecList ⟨fun _ => 0, fun _ => 0⟩
        [(("s.a" : String), ActionItem.mk ("ca") (some [("s.b" : String)])),
          (("s.b" : String), ActionItem.mk ("cb") none)]
        ⟨[("s.a" : String)], none⟩ [("s.a" : String)] ⟨[("s.b" : String)], []⟩ =
      runExecList ⟨fun _ => 0, fun _ => 0⟩
        [(("s.a" : String), ActionItem.mk ("ca") (some [("s.b" : String)])),
          (("s.b" : String), ActionItem.mk ("cb") none)]
        ⟨[("s.a" : String)], none⟩ [] ⟨[("s.b" : String)], []⟩ ∧
    ¬ List.Sublist [("s.b" : String), "s.a"]
      (actNames (react ⟨fun _ => 0, fun _ => 0⟩
        [(("s.a" : String), ActionItem.mk ("ca") (some [("s.b" : String)])),
          (("s.b" : String), ActionItem.mk ("cb") none)]
        [⟨[("s.b" : String)], none⟩, ⟨[("s.a" : String)], none⟩] []).1.trace)) :=
  ⟨by rfl, by decide, by rfl, by rfl,
    react_exclusion_sound ⟨fun _ => 0, fun _ => 0⟩
      [(("s.a" : String), ActionItem.mk ("ca") (some [("s.b" : String)])),
        (("s.b" : String), ActionItem.mk ("cb") none)]
      [⟨[("s.b" : String)], none⟩, ⟨[("s.a" : String)], none⟩] [] ("s.a") ("s.b")
      (ActionItem.mk ("ca") (some [("s.b" : String)])) ⟨[("s.a" : String)], none⟩ []
      ⟨[("s.b" : String)], []⟩ (by rfl) (by decide) (by rfl) (by rfl)⟩

/-- C3: a non-zero exit status of an action command aborts the pass at
once: locally, running the reference yields the `CalledProcessError`
carrying the offending command and its status without touching the
remaining references, the name is not added to `done_actions`, and an
erroring reaction stops the outer loop without processing later
reactions; globally, whenever `react` ends in a `CalledProcessError`, the
status is non-zero, the command and status belong to a catalog action
whose tokenized command was the last process started, and that action's
name is not in the final `done_actions` set. -/
theorem react_fail_fast (env : ExecEnv) (actions : Catalog)
    (reactions : List Reaction) (paths_changed : List String)
    (a c2 : String) (item : ActionItem) (reaction r0 : Reaction)
    (rest : List String) (later : List Reaction)
    (st st0 st1 st2 : RunState) (e0 : SqError) (ret ret2 : Int)
    (hlook : actions.lookup a = some item)
    (hnd : st.done_actions.contains a = false)
    (hint : intersects st.done_actions (notAfterOf item) = false)
    (hret : env.check_call (pySplit item.command) = ret)
    (hr0 : ret ≠ 0)
    (hrr : runReaction env actions paths_changed r0 st0 = (st1, some e0))
    (hreact : react env actions reactions paths_changed =
      (st2, some (.calledProcessError c2 ret2))) :
    runExecList env actions reaction (a :: rest) st =
      (⟨st.done_actions, st.trace ++ [.act a (pySplit item.command)]⟩,
        some (.calledProcessError item.command ret)) ∧
    reactLoop env actions paths_changed (r0 :: later) st0 = (st1, some e0) ∧
    (ret2 ≠ 0 ∧ ∃ aN itemN, actions.lookup aN = some itemN ∧ itemN.command = c2 ∧
      env.check_call (pySplit c2) = ret2 ∧
      st2.trace.getLast? = some (.act aN (pySplit c2)) ∧
      st2.done_actions.contains aN = false) := by
  refine ⟨?_, reactLoop_stop env actions paths_changed r0 st0 st1 e0 later hrr, ?_⟩
  · rw [runExecList, hlook]
    simp only [hnd, hint, Bool.false_eq_true, if_false, hret,
      beq_eq_false_iff_ne.mpr hr0]
  · rw [react] at hreact
    exact reactLoop_cpe env actions paths_changed reactions ⟨[], []⟩ st2 c2 ret2 hreact

theorem react_fail_fast_witness :
    List.lookup ("s.a") [(("s.a" : String), ActionItem.mk ("boom") none)] =
      some (ActionItem.mk ("boom") none) ∧
    List.contains ([] : List String) ("s.a") = false ∧
    intersects [] (notAfterOf (ActionItem.mk ("boom") none)) = false ∧
    (ExecEnv.mk (fun _ => 0) (fun _ => 1)).check_call
      (pySplit (ActionItem.mk ("boom") none).command) = 1 ∧
    (1 : Int) ≠ 0 ∧
    runReaction ⟨fun _ => 0, fun _ => 1⟩
      [(("s.a" : String), ActionItem.mk ("boom") none)] []
      ⟨[("s.a" : String)], none⟩ ⟨[], []⟩ =
      (⟨[], [.act ("s.a") [("boom" : String)]]⟩,
        some (.calledProcessError ("boom") 1)) ∧
    react ⟨fun _ => 0, fun _ => 1⟩
      [(("s.a" : String), ActionItem.mk ("boom") none)]
      [⟨[("s.a" : String)], none⟩] [] =
      (⟨[], [.act ("s.a") [("boom" : String)]]⟩,
        some (.calledProcessError ("boom") 1)) ∧
    (runExecList ⟨fun _ => 0, fun _ => 1⟩
        [(("s.a" : String), ActionItem.mk ("boom") none)]
        ⟨[("s.a" : String)], none⟩ [("s.a" : String)] ⟨[], []⟩ =
      (⟨[], [] ++ [.act ("s.a") (pySplit (ActionItem.mk ("boom") none).command)]⟩,
        some (.calledProcessError (ActionItem.mk ("boom") none).command 1)) ∧
    reactLoop ⟨fun _ => 0, fun _ => 1⟩
        [(("s.a" : String), ActionItem.mk ("boom") none)] []
        (⟨[("s.a" : String)], none⟩ :: []) ⟨[], []⟩ =
      (⟨[], [.act ("s.a") [("boom" : String)]]⟩,
        some (.calledProcessError ("boom") 1)) ∧
    ((1 : Int) ≠ 0 ∧ ∃ aN itemN,
      List.lookup aN [(("s.a" : String), ActionItem.mk ("boom") none)] =
        some itemN ∧ itemN.command = ("boom" : String) ∧
      (ExecEnv.mk (fun _ => 0) (fun _ => 1)).check_call (pySplit ("boom")) = 1 ∧
      (RunState.mk [] [.act ("s.a") [("boom" : String)]]).trace.getLast? =
        some (.act aN (pySplit ("boom"))) ∧
      (RunState.mk [] [.act ("s.a")
        [("boom" : String)]]).done_actions.contains aN = false)) :=
  ⟨by rfl, by rfl, by rfl, by rfl, by decide, by rfl, by rfl,
    react_fail_fast ⟨fun _ => 0, fun _ => 1⟩
      [(("s.a" : String), ActionItem.mk ("boom") none)]
      [⟨[("s.a" : String)], none⟩] [] ("s.a") ("boom")
      (ActionItem.mk ("boom") none) ⟨[("s.a" : String)], none⟩
      ⟨[("s.a" : String)], none⟩ [] [] ⟨[], []⟩ ⟨[], []⟩
      ⟨[], [.act ("s.a") [("boom" : String)]]⟩
      ⟨[], [.act ("s.a") [("boom" : String)]]⟩
      (.calledProcessError ("boom") 1) 1 1
      (by rfl) (by rfl) (by rfl) (by rfl) (by decide) (by rfl) (by rfl)⟩

/-- C6: an `execute` reference absent from the catalog is fatal: locally
it yields the `ValueError` naming both the missing action and the owning
reaction with the state untouched and the remaining references
unprocessed, an erroring reaction stops the outer loop without processing
later reactions, and whenever `react` ends in an `UnknownActionError` the
named action is indeed absent from the catalog and the named reaction is
one of the input reactions whose `execute` list contains it. -/
theorem react_unknown_action_fatal (env : ExecEnv) (actions : Catalog)
    (reactions : List Reaction) (paths_changed : List String)
    (a a2 : String) (reaction r0 r2 : Reaction) (rest : List String)
    (later : List Reaction) (st st0 st1 st2 : RunState) (e0 : SqError)
    (hnone : actions.lookup a = none)
    (hrr : runReaction env actions paths_changed r0 st0 = (st1, some e0))
    (hreact : react env actions reactions paths_changed =
      (st2, some (.unknownActionError a2 r2))) :
    runExecList env actions reaction (a :: rest) st =
      (st, some (.unknownActionError a reaction)) ∧
    reactLoop env actions paths_changed (r0 :: later) st0 = (st1, some e0) ∧
    (actions.lookup a2 = none ∧ r2 ∈ reactions ∧ a2 ∈ r2.execute) := by
  refine ⟨?_, reactLoop_stop env actions paths_changed r0 st0 st1 e0 later hrr, ?_⟩
  · rw [runExecList, hnone]
  · rw [react] at hreact
    exact reactLoop_uae env actions paths_changed reactions ⟨[], []⟩ st2 a2 r2 hreact

theorem react_unknown_action_fatal_witness :
    List.lookup ("s.x") ([] : Catalog) = none ∧
    runReaction ⟨fun _ => 0, fun _ => 0⟩ ([] : Catalog) []
      ⟨[("s.x" : String)], none⟩ ⟨[], []⟩ =
      (⟨[], []⟩, some (.unknownActionError ("s.x") ⟨[("s.x" : String)], none⟩)) ∧
    react ⟨fun _ => 0, fun _ => 0⟩ ([] : Catalog)
      [⟨[("s.x" : String)], none⟩] [] =
      (⟨[], []⟩, some (.unknownActionError ("s.x") ⟨[("s.x" : String)], none⟩)) ∧
    (runExecList ⟨fun _ => 0, fun _ => 0⟩ ([] : Catalog)
        ⟨[("s.x" : String)], none⟩ [("s.x" : String)] ⟨[], []⟩ =
      (⟨[], []⟩, some (.unknownActionError ("s.x") ⟨[("s.x" : String)], none⟩)) ∧
    reactLoop ⟨fun _ => 0, fun _ => 0⟩ ([] : Catalog) []
        (⟨[("s.x" : String)], none⟩ :: []) ⟨[], []⟩ =
      (⟨[], []⟩, some (.unknownActionError ("s.x") ⟨[("s.x" : String)], none⟩)) ∧
    (List.lookup ("s.x") ([] : Catalog) = none ∧
      (⟨[("s.x" : String)], none⟩ : Reaction) ∈ [(⟨[("s.x" : String)], none⟩ : Reaction)] ∧
      ("s.x" : String) ∈ (⟨[("s.x" : String)], none⟩ : Reaction).execute)) :=
  ⟨by rfl, by rfl, by rfl,
    react_unknown_action_fatal ⟨fun _ => 0, fun _ => 0⟩ ([] : Catalog)
      [⟨[("s.x" : String)], none⟩] [] ("s.x") ("s.x")
      ⟨[("s.x" : String)], none⟩ ⟨[("s.x" : String)], none⟩
      ⟨[("s.x" : String)], none⟩ [] [] ⟨[], []⟩ ⟨[], []⟩ ⟨[], []⟩ ⟨[], []⟩
      (.unknownActionError ("s.x") ⟨[("s.x" : String)], none⟩)
      (by rfl) (by rfl) (by rfl)⟩

/-- C7: qualification is idempotent (`qualify s (qualify s n) = qualify s n`
for every service name and name), and a local action key containing the
separator makes catalog construction fail: any such key forces an error,
and when the earlier items are clean the error is precisely the
`ValueError` (`NamingError`) naming that key, the service and the version. -/
theorem qualify_idempotent_and_naming (s n service_ver k : String)
    (v : ActionItem) (desc pre post : List (String × ActionItem))
    (hmem : (k, v) ∈ desc) (hdot : hasDot k = true)
    (hpre : ∀ p ∈ pre, hasDot p.1 = false ∧ actionSchemaOk p.2 = true) :
    qualify s (qualify s n) = qualify s n ∧
    (∃ e, get_service_actions s service_ver desc = .error e) ∧
    get_service_actions s service_ver (pre ++ (k, v) :: post) =
      .error (.namingError k s service_ver) := by
  refine ⟨?_, ?_, ?_⟩
  · by_cases h : hasDot n = true
    · rw [qualify_of_hasDot s n h, qualify_of_hasDot s n h]
    · simp only [Bool.not_eq_true] at h
      rw [qualify_of_not_hasDot s n h,
        qualify_of_hasDot s (s ++ "." ++ n) (hasDot_qualified s n)]
  · exact get_service_actions_any_dot s service_ver desc ⟨(k, v), hmem, hdot⟩
  · exact get_service_actions_first_dot s service_ver k v post pre hpre hdot

theorem qualify_idempotent_and_naming_witness :
    ((("a.b" : String), ActionItem.mk ("c") none) ∈
      [((("a.b" : String), ActionItem.mk ("c") none))]) ∧
    hasDot ("a.b") = true ∧
    (∀ p ∈ ([] : List (String × ActionItem)),
      hasDot p.1 = false ∧ actionSchemaOk p.2 = true) ∧
    (qualify ("svc") (qualify ("svc") ("x")) = qualify ("svc") ("x") ∧
    (∃ e, get_service_actions ("svc") ("1")
      [((("a.b" : String), ActionItem.mk ("c") none))] = .error e) ∧
    get_service_actions ("svc") ("1")
        ([] ++ (("a.b" : String), ActionItem.mk ("c") none) :: []) =
      .error (.namingError ("a.b") ("svc") ("1"))) :=
  ⟨by decide, by rfl, (by intro p hp; cases hp),
    qualify_idempotent_and_naming ("svc") ("x") ("1") ("a.b")
      (ActionItem.mk ("c") none)
      [((("a.b" : String), ActionItem.mk ("c") none))] [] []
      (by decide) (by rfl) (by intro p hp; cases hp)⟩

/-- C4 counterexample: a reaction whose `when` block has neither `command`
nor `files` passes `get_reactions` (the schema marks every `when` field
optional, so no construction-time error is raised), and the error only
appears when `react` evaluates the trigger.  This contradicts the claim
that the `SchemaError` occurs when the reaction list is built. -/
theorem when_without_fields_counterexample :
    get_reactions ("svc") ("1") [⟨[("a" : String)], some ⟨none, none, none⟩⟩] =
      .ok [⟨[("svc.a" : String)], some ⟨none, none, none⟩⟩] ∧
    react ⟨fun _ => 0, fun _ => 0⟩ [(("svc.a" : String), ActionItem.mk ("c") none)]
        [⟨[("svc.a" : String)], some ⟨none, none, none⟩⟩] [] =
      (⟨[], []⟩, some .whenBlockError) :=
  ⟨by rfl, by rfl⟩

/-- C4 amended: a trigger with neither `command` nor `files` is accepted
by `get_reactions` (construction succeeds, the schema requires no `when`
field), and the defect is detected only when `react` evaluates the
trigger, as the run-time `ValueError` for the when block — before any
process is started and regardless of the catalog, changed paths and later
reactions. -/
theorem when_without_fields_deferred (s service_ver : String)
    (execs qes ps : List String) (eo : Option Int) (env : ExecEnv)
    (actions : Catalog) (rest : List Reaction)
    (hne : execs ≠ []) (hnd : execs.Nodup) :
    get_reactions s service_ver [⟨execs, some ⟨none, eo, none⟩⟩] =
      .ok [⟨execs.map (qualify s), some ⟨none, eo, none⟩⟩] ∧
    react env actions (⟨qes, some ⟨none, eo, none⟩⟩ :: rest) ps =
      (⟨[], []⟩, some .whenBlockError) := by
  constructor
  · have h1 : execs.isEmpty = false := by
      cases execs with
      | nil => exact absurd rfl hne
      | cons a l => rfl
    simp [get_reactions, reactionSchemaOk, h1, hnd]
  · rfl

theorem when_without_fields_deferred_witness :
    ([("a" : String)] ≠ []) ∧ ([("a" : String)].Nodup) ∧
    (get_reactions ("svc") ("1") [⟨[("a" : String)], some ⟨none, none, none⟩⟩] =
      .ok [⟨[("a" : String)].map (qualify ("svc")), some ⟨none, none, none⟩⟩] ∧
    react ⟨fun _ => 0, fun _ => 0⟩ ([] : Catalog)
        (⟨[("svc.a" : String)], some ⟨none, none, none⟩⟩ :: []) [] =
      (⟨[], []⟩, some .whenBlockError)) :=
  ⟨by decide, by decide,
    when_without_fields_deferred ("svc") ("1") [("a" : String)]
      [("svc.a" : String)] [] none ⟨fun _ => 0, fun _ => 0⟩ ([] : Catalog) []
      (by decide) (by decide)⟩

/-- C9: a `when` block with a `command` but no `exitcode` passes
`get_reactions` (the schema marks `exitcode` optional), yet evaluating
the trigger in `react` raises the missing-key error for `exitcode` —
before any process is started — instead of returning a firing decision. -/
theorem missing_exitcode_runtime_error (s service_ver c : String)
    (execs qes ps : List String) (fo : Option (List String)) (env : ExecEnv)
    (actions : Catalog) (rest : List Reaction)
    (hne : execs ≠ []) (hnd : execs.Nodup) :
    get_reactions s service_ver [⟨execs, some ⟨some c, none, fo⟩⟩] =
      .ok [⟨execs.map (qualify s), some ⟨some c, none, fo⟩⟩] ∧
    react env actions (⟨qes, some ⟨some c, none, fo⟩⟩ :: rest) ps =
      (⟨[], []⟩, some (.keyError ("exitcode"))) := by
  constructor
  · have h1 : execs.isEmpty = false := by
      cases execs with
      | nil => exact absurd rfl hne
      | cons a l => rfl
    simp [get_reactions, reactionSchemaOk, h1, hnd]
  · rfl

theorem missing_exitcode_runtime_error_witness :
    ([("a" : String)] ≠ []) ∧ ([("a" : String)].Nodup) ∧
    (get_reactions ("svc") ("1")
        [⟨[("a" : String)], some ⟨some ("true"), none, none⟩⟩] =
      .ok [⟨[("a" : String)].map (qualify ("svc")),
        some ⟨some ("true"), none, none⟩⟩] ∧
    react ⟨fun _ => 0, fun _ => 0⟩ ([] : Catalog)
        (⟨[("svc.a" : String)], some ⟨some ("true"), none, none⟩⟩ :: []) [] =
      (⟨[], []⟩, some (.keyError ("exitcode")))) :=
  ⟨by decide, by decide,
    missing_exitcode_runtime_error ("svc") ("1") ("true") [("a" : String)]
      [("svc.a" : String)] [] none ⟨fun _ => 0, fun _ => 0⟩ ([] : Catalog) []
      (by decide) (by decide)⟩

/-- C10: when a `when` block carries both `command` and `files`, only the
command probe is evaluated: the trigger records exactly the probe process
and fires iff the status equals `exitcode`, with the file patterns absent
from the result (first two conjuncts, the second being literal
independence from the `files` entry); consequently the states a `react`
pass reaches are the same as with the `files` entry removed. -/
theorem both_command_and_files_uses_command (env : ExecEnv) (ps qes : List String)
    (c : String) (ec : Int) (pats : List String) (st : RunState)
    (actions : Catalog) (rest : List Reaction) :
    evalWhen env ps (some ⟨some c, some ec, some pats⟩) st =
      (⟨st.done_actions, st.trace ++ [.probe [c]]⟩, .ok (env.call c == ec)) ∧
    evalWhen env ps (some ⟨some c, some ec, some pats⟩) st =
      evalWhen env ps (some ⟨some c, some ec, none⟩) st ∧
    (react env actions (⟨qes, some ⟨some c, some ec, some pats⟩⟩ :: rest) ps).1 =
      (react env actions (⟨qes, some ⟨some c, some ec, none⟩⟩ :: rest) ps).1 := by
  refine ⟨rfl, rfl, ?_⟩
  exact reactLoop_head_indep env actions ps
    ⟨qes, some ⟨some c, some ec, some pats⟩⟩
    ⟨qes, some ⟨some c, some ec, none⟩⟩ rest ⟨[], []⟩ rfl rfl

/-- C5 evaluated at the failing input: the probe command string of a
trigger is passed to `subprocess.call` whole — the started process has
the raw string as its single argv entry — while the action command is
tokenized; the tokenization of the same probe string would have been
`["foo", "bar"]`, so the probe invocation is not whitespace-tokenized. -/
theorem probe_command_untokenized :
    (react ⟨fun _ => 0, fun _ => 0⟩
        [(("svc.a" : String), ActionItem.mk ("echo ok") none)]
        [⟨[("svc.a" : String)], some ⟨some ("foo bar"), some 0, none⟩⟩] []).1.trace =
      [.probe [("foo bar" : String)],
       .act ("svc.a") [("echo" : String), "ok"]] ∧
    pySplit ("foo bar") = [("foo" : String), "bar"] ∧
    [("foo bar" : String)] ≠ pySplit ("foo bar") :=
  ⟨by rfl, by rfl, by decide⟩

/-- C8: reaction order changes outcomes.  With catalog entries `s.a`
(command `ca`) and `s.b` (command `cb`, `not_after = [s.a]`), both
commands succeeding, running reaction R1 = execute `[s.a]` before
R2 = execute `[s.b]` skips `s.b` (only `s.a` is invoked), while the
reversed order runs `s.b` first — its `not_after` intersection with the
empty `done_actions` is empty — and then `s.a`, so both are invoked. -/
theorem react_order_sensitivity (env : ExecEnv) (ca cb : String) (ps : List String)
    (h1 : env.check_call (pySplit ca) = 0) (h2 : env.check_call (pySplit cb) = 0) :
    (react env [(("s.a" : String), ActionItem.mk ca none),
        (("s.b" : String), ActionItem.mk cb (some [("s.a" : String)]))]
      [⟨[("s.a" : String)], none⟩, ⟨[("s.b" : String)], none⟩] ps).1.trace =
      [.act ("s.a") (pySplit ca)] ∧
    (react env [(("s.a" : String), ActionItem.mk ca none),
        (("s.b" : String), ActionItem.mk cb (some [("s.a" : String)]))]
      [⟨[("s.b" : String)], none⟩, ⟨[("s.a" : String)], none⟩] ps).1.trace =
      [.act ("s.b") (pySplit cb), .act ("s.a") (pySplit ca)] := by
  constructor <;>
    simp [react, reactLoop, runReaction, evalWhen, runExecList, List.lookup,
      notAfterOf, intersects, h1, h2]

theorem react_order_sensitivity_witness :
    (ExecEnv.mk (fun _ => 0) (fun _ => 0)).check_call (pySplit ("make a")) = 0 ∧
    (ExecEnv.mk (fun _ => 0) (fun _ => 0)).check_call (pySplit ("make b")) = 0 ∧
    ((react ⟨fun _ => 0, fun _ => 0⟩
        [(("s.a" : String), ActionItem.mk ("make a") none),
          (("s.b" : String), ActionItem.mk ("make b") (some [("s.a" : String)]))]
        [⟨[("s.a" : String)], none⟩, ⟨[("s.b" : String)], none⟩] []).1.trace =
      [.act ("s.a") (pySplit ("make a"))] ∧
    (react ⟨fun _ => 0, fun _ => 0⟩
        [(("s.a" : String), ActionItem.mk ("make a") none),
          (("s.b" : String), ActionItem.mk ("make b") (some [("s.a" : String)]))]
        [⟨[("s.b" : String)], none⟩, ⟨[("s.a" : String)], none⟩] []).1.trace =
      [.act ("s.b") (pySplit ("make b")), .act ("s.a") (pySplit ("make a"))]) :=
  ⟨by rfl, by rfl,
    react_order_sensitivity ⟨fun _ => 0, fun _ => 0⟩ ("make a") ("make b") []
      (by rfl) (by rfl)⟩

end Squadron
